import Mathlib

/-!
Shallow embedding of the li-domain-checker scanner (src/main.rs) and proofs
about its candidate generation, reply-code classification, response parsing
and result aggregation.

Candidate strings are modelled as `List Char`; the stack-based generation
loop is modelled with explicit fuel (the loop terminates because every
iteration pops one stack entry and pushes only strictly longer strings,
so a fuel larger than the number of explored strings suffices; none of the
theorems below depend on the fuel being large enough).
-/

/-- Domain status enumeration (`enum DomainStatus`). -/
inductive DomainStatus where
  | Available
  | Registered
  | RateLimited
  | Error
deriving DecidableEq, Repr

/-- Embeds `DomainStatus::from_reply_code`: the fixed reply-code table. -/
def from_reply_code (code : Int) : DomainStatus :=
  if code = 1 then DomainStatus.Available
  else if code = 0 then DomainStatus.Registered
  else if code = -95 then DomainStatus.RateLimited
  else DomainStatus.Error

/-- The generation alphabet (`chars` in `generate_domains`): lowercase
letters, optionally digits, and the hyphen. -/
def genChars (lettersOnly : Bool) : List Char :=
  if lettersOnly then
    "abcdefghijklmnopqrstuvwxyz-".toList
  else
    "abcdefghijklmnopqrstuvwxyz0123456789-".toList

/-- Embeds Rust `str::contains("--")`: some two consecutive characters are
both hyphens. -/
def containsDoubleHyphen : List Char → Bool
  | [] => false
  | [_] => false
  | a :: b :: rest =>
      (decide (a = '-') && decide (b = '-')) || containsDoubleHyphen (b :: rest)

/-- Embeds `LiDomainScanner::is_valid_domain`. -/
def is_valid_domain (domain : List Char) : Bool :=
  if ¬ (1 ≤ domain.length ∧ domain.length ≤ 4) then false
  else if domain.head? = some '-' ∨ domain.getLast? = some '-'
          ∨ containsDoubleHyphen domain = true then false
  else domain.all fun c => c.isAlphanum || c == '-'

/-- One stack-extension step of the DFS loop in `generate_domains`: push
`current ++ [c]` for every alphabet character `c`, skipping exactly the
extensions matching the Rust guard
`!current.is_empty() && c == '-' && current.ends_with('-')`. -/
def pushChildren (chars current : List Char) (stack : List (List Char)) :
    List (List Char) :=
  chars.foldl
    (fun st c =>
      if current ≠ [] ∧ c = '-' ∧ current.getLast? = some '-' then st
      else (current ++ [c]) :: st)
    stack

/-- The `while let Some(current) = stack.pop()` loop of `generate_domains`,
with explicit fuel. -/
def genLoop (chars : List Char) (len : Nat) :
    Nat → List (List Char) → List (List Char) → List (List Char)
  | 0, _, domains => domains
  | _ + 1, [], domains => domains
  | fuel + 1, current :: rest, domains =>
      if current.length = len then
        genLoop chars len fuel rest
          (if is_valid_domain current then domains ++ [current] else domains)
      else
        genLoop chars len fuel (pushChildren chars current rest) domains

/-- Fuel bound for the DFS loop: strictly more than the number of strings
ever explored (at most `1 + 37 + 37^2 + 37^3 + 37^4 < 2000000`). -/
def genFuel : Nat := 2000000

/-- Embeds `LiDomainScanner::generate_domains`. -/
def generate_domains (len : Nat) (lettersOnly : Bool) : List (List Char) :=
  let chars := genChars lettersOnly
  match len with
  | 1 => (chars.filter fun c => c != '-').map fun c => [c]
  | 2 | 3 | 4 => genLoop chars len genFuel [[]] []
  | _ => []

/-- The repeat-pattern alphabet (`chars` in
`generate_repeat_pattern_domains`): hyphen excluded. -/
def repeatChars (lettersOnly : Bool) : List Char :=
  if lettersOnly then
    "abcdefghijklmnopqrstuvwxyz".toList
  else
    "abcdefghijklmnopqrstuvwxyz0123456789".toList

/-- Embeds `LiDomainScanner::generate_repeat_pattern_domains`: all-same strings,
then three-same-one-different in four positions, then the three two-two
arrangements. -/
def generate_repeat_pattern_domains (lettersOnly : Bool) : List (List Char) :=
  let chars := repeatChars lettersOnly
  (chars.map fun c => [c, c, c, c]) ++
  ((chars.flatMap fun c1 => chars.flatMap fun c2 =>
    if c1 ≠ c2 then
      [[c1, c1, c1, c2], [c1, c1, c2, c1], [c1, c2, c1, c1], [c2, c1, c1, c1]]
    else []) ++
  (chars.flatMap fun c1 => chars.flatMap fun c2 =>
    if c1 ≠ c2 then
      [[c1, c1, c2, c2], [c1, c2, c2, c1], [c1, c2, c1, c2]]
    else []))

/-- Rust `str::split_once(sep)`: split at the first occurrence of `sep`. -/
def split_once (l : List Char) (sep : Char) : Option (List Char × List Char) :=
  match l with
  | [] => none
  | c :: rest =>
      if c = sep then some ([], rest)
      else (split_once rest sep).map fun p => (c :: p.1, p.2)

/-- Rust `str::parse::<i32>()`: optional sign, then only decimal digits,
value within the i32 range. -/
def parse_i32 (l : List Char) : Option Int :=
  let signDigits : Int × List Char :=
    match l with
    | '+' :: rest => (1, rest)
    | '-' :: rest => (-1, rest)
    | _ => (1, l)
  let digits := signDigits.2
  if digits = [] then none
  else if digits.all Char.isDigit then
    let v : Int := signDigits.1 *
      ((digits.foldl (fun n c => n * 10 + (c.toNat - 48)) 0 : Nat) : Int)
    if -2147483648 ≤ v ∧ v ≤ 2147483647 then some v else none
  else none

/-- Rust `str::trim`: drop whitespace from both ends. -/
def trimChars (l : List Char) : List Char :=
  ((l.dropWhile Char.isWhitespace).reverse.dropWhile Char.isWhitespace).reverse

/-- The response-splitting match in `query_domain_check` (lines 140-143):
on `Some((code, msg))` the code is parsed with fallback `-99` and the
message is trimmed; on `None` the code is `-99` and the message is the
whole (already trimmed) response. -/
def parse_response (response : List Char) : Int × List Char :=
  match split_once response ':' with
  | some (code, msg) => ((parse_i32 code).getD (-99), trimChars msg)
  | none => (-99, response)

/-- One probe result (`struct DomainResult`; the wall-clock timestamp field
is outside the embedding). -/
structure DomainResult where
  domain : List Char
  status : DomainStatus
  reply_code : Int
  message : List Char
deriving DecidableEq, Repr

/-- Outcome of the network interaction of one probe: the connect, write or
read step fails, or the peer returns a raw response text. -/
inductive NetworkOutcome where
  | connectFail
  | writeFail
  | readFail
  | response (raw : List Char)
deriving DecidableEq, Repr

/-- Embeds `LiDomainScanner::query_domain_check`, as a function of the candidate
and of the network outcome. Each `?` in the Rust source is an early
`Except.error` return; a received response is trimmed, split on the first
colon, classified through `from_reply_code`, and packaged as a
`DomainResult` for the domain with the `.li` suffix appended. -/
def query_domain_check (domain : List Char) (net : NetworkOutcome) :
    Except (List Char) DomainResult :=
  match net with
  | NetworkOutcome.connectFail =>
      Except.error "Failed to connect to whois server".toList
  | NetworkOutcome.writeFail => Except.error "failed to write query".toList
  | NetworkOutcome.readFail => Except.error "failed to read response".toList
  | NetworkOutcome.response raw =>
      let response := trimChars raw
      let parsed := parse_response response
      Except.ok
        { domain := domain ++ ".li".toList
          status := from_reply_code parsed.1
          reply_code := parsed.1
          message := parsed.2 }

/-- The result-collection behaviour of `scan_domains`: every spawned task
calls `query_domain_check(...).unwrap()` and the collection loop calls
`.unwrap()` on each joined task, so the first probe whose network step
fails panics the run; only a run with no such failure yields the full
result list. -/
def scan_domains (items : List (List Char × NetworkOutcome)) :
    Except (List Char) (List DomainResult) :=
  items.mapM fun it => query_domain_check it.1 it.2

/-- The available-set update of `query_domain_check` (lines 147-150):
insert the suffixed domain exactly when the status is `Available`. -/
def record_available (s : Finset (List Char)) (r : DomainResult) :
    Finset (List Char) :=
  if r.status = DomainStatus.Available then insert r.domain s else s

/-- The available-domain set accumulated over a list of probe results. -/
def available_set (results : List DomainResult) : Finset (List Char) :=
  results.foldl record_available ∅

/-- The candidate-list construction of `LiDomainScanner::run`: exhaustive
generation for lengths `1..=max_length` (4 when `full_scan`, otherwise 3),
then the repeat-pattern set only when not `full_scan`. -/
def run_domains (full_scan lettersOnly : Bool) : List (List Char) :=
  let maxLength : Nat := if full_scan then 4 else 3
  let base := (List.range maxLength).foldl
    (fun acc i => acc ++ generate_domains (i + 1) lettersOnly) []
  if ¬ full_scan then base ++ generate_repeat_pattern_domains lettersOnly
  else base

/-! ### Helper lemmas -/

lemma split_once_eq_none (l : List Char) (sep : Char) (h : sep ∉ l) :
    split_once l sep = none := by
  induction l with
  | nil => rfl
  | cons c rest ih =>
      simp only [List.mem_cons, not_or] at h
      simp [split_once, Ne.symm h.1, ih h.2]

lemma split_once_append (pre post : List Char) (sep : Char) (h : sep ∉ pre) :
    split_once (pre ++ sep :: post) sep = some (pre, post) := by
  induction pre with
  | nil => simp [split_once]
  | cons c rest ih =>
      simp only [List.mem_cons, not_or] at h
      simp [split_once, Ne.symm h.1, ih h.2]

lemma mem_foldl_record (results : List DomainResult)
    (init : Finset (List Char)) (d : List Char) :
    d ∈ results.foldl record_available init ↔
      d ∈ init ∨ ∃ r ∈ results, r.domain = d ∧
        r.status = DomainStatus.Available := by
  induction results generalizing init with
  | nil => simp
  | cons r rest ih =>
      rw [List.foldl_cons, ih]
      unfold record_available
      by_cases h : r.status = DomainStatus.Available
      · simp only [h, if_pos, Finset.mem_insert]
        constructor
        · rintro (⟨h1 | h1⟩ | ⟨x, hx, hxd, hxs⟩)
          · exact Or.inr ⟨r, List.mem_cons_self r rest, h1.symm, h⟩
          · exact Or.inl h1
          · exact Or.inr ⟨x, List.mem_cons_of_mem r hx, hxd, hxs⟩
        · rintro (h1 | ⟨x, hx, hxd, hxs⟩)
          · exact Or.inl (Or.inr h1)
          · rcases List.mem_cons.mp hx with hx | hx
            · exact Or.inl (Or.inl (hx ▸ hxd.symm))
            · exact Or.inr ⟨x, hx, hxd, hxs⟩
      · simp only [h, if_neg, not_false_iff]
        constructor
        · rintro (h1 | ⟨x, hx, hxd, hxs⟩)
          · exact Or.inl h1
          · exact Or.inr ⟨x, List.mem_cons_of_mem r hx, hxd, hxs⟩
        · rintro (h1 | ⟨x, hx, hxd, hxs⟩)
          · exact Or.inl h1
          · rcases List.mem_cons.mp hx with hx | hx
            · exact absurd (hx ▸ hxs) h
            · exact Or.inr ⟨x, hx, hxd, hxs⟩

lemma mem_pushChildren (chars : List Char) :
    ∀ (current : List Char) (stack : List (List Char)) (s : List Char),
      s ∈ pushChildren chars current stack ↔
        s ∈ stack ∨ ∃ c ∈ chars,
          ¬(current ≠ [] ∧ c = '-' ∧ current.getLast? = some '-') ∧
          s = current ++ [c] := by
  induction chars with
  | nil => intro current stack s; simp [pushChildren]
  | cons c cs ih =>
      intro current stack s
      show s ∈ pushChildren cs current
          (if current ≠ [] ∧ c = '-' ∧ current.getLast? = some '-' then stack
           else (current ++ [c]) :: stack) ↔ _
      rw [ih]
      by_cases hc : current ≠ [] ∧ c = '-' ∧ current.getLast? = some '-'
      · rw [if_pos hc]
        constructor
        · rintro (h | ⟨d, hd, hcond, hs⟩)
          · exact Or.inl h
          · exact Or.inr ⟨d, List.mem_cons_of_mem c hd, hcond, hs⟩
        · rintro (h | ⟨d, hd, hcond, hs⟩)
          · exact Or.inl h
          · rcases List.mem_cons.mp hd with rfl | hd
            · exact absurd hc hcond
            · exact Or.inr ⟨d, hd, hcond, hs⟩
      · rw [if_neg hc]
        constructor
        · rintro (h | ⟨d, hd, hcond, hs⟩)
          · rcases List.mem_cons.mp h with rfl | h
            · exact Or.inr ⟨c, List.mem_cons_self c cs, hc, rfl⟩
            · exact Or.inl h
          · exact Or.inr ⟨d, List.mem_cons_of_mem c hd, hcond, hs⟩
        · rintro (h | ⟨d, hd, hcond, hs⟩)
          · exact Or.inl (List.mem_cons_of_mem _ h)
          · rcases List.mem_cons.mp hd with rfl | hd
            · exact Or.inl (hs ▸ List.mem_cons_self _ _)
            · exact Or.inr ⟨d, hd, hcond, hs⟩

lemma genLoop_mem (chars : List Char) (len : Nat) :
    ∀ (fuel : Nat) (stack acc : List (List Char)) (s : List Char),
      s ∈ genLoop chars len fuel stack acc →
      s ∈ acc ∨ is_valid_domain s = true := by
  intro fuel
  induction fuel with
  | zero => intro stack acc s hs; exact Or.inl hs
  | succ fuel ih =>
      intro stack acc s hs
      rcases stack with _ | ⟨current, rest⟩
      · exact Or.inl hs
      · rw [genLoop] at hs
        by_cases hlen : current.length = len
        · rw [if_pos hlen] at hs
          rcases ih rest _ s hs with h | h
          · cases hv : is_valid_domain current with
            | true =>
                rw [hv, if_pos rfl] at h
                rcases List.mem_append.mp h with h | h
                · exact Or.inl h
                · rw [List.mem_singleton.mp h]
                  exact Or.inr hv
            | false =>
                rw [hv] at h
                simp only [Bool.false_eq_true, if_neg, not_false_iff] at h
                exact Or.inl h
          · exact Or.inr h
        · rw [if_neg hlen] at hs
          exact ih _ _ s hs

lemma is_valid_domain_props (s : List Char) (h : is_valid_domain s = true) :
    s.head? ≠ some '-' ∧ s.getLast? ≠ some '-' ∧
    containsDoubleHyphen s = false := by
  by_cases h2 : s.head? = some '-' ∨ s.getLast? = some '-'
      ∨ containsDoubleHyphen s = true
  · exfalso
    revert h
    simp [is_valid_domain, h2]
  · push_neg at h2
    refine ⟨h2.1, h2.2.1, ?_⟩
    cases hcd : containsDoubleHyphen s
    · rfl
    · exact absurd hcd h2.2.2

lemma cdh_append_last (l : List Char) (c : Char) :
    containsDoubleHyphen (l ++ [c])
      = (containsDoubleHyphen l ||
         (decide (l.getLast? = some '-') && decide (c = '-'))) := by
  induction l with
  | nil => simp [containsDoubleHyphen]
  | cons a rest ih =>
      cases rest with
      | nil => simp [containsDoubleHyphen]
      | cons b rest2 =>
          show containsDoubleHyphen (a :: (b :: rest2) ++ [c]) = _
          rw [List.cons_append]
          show ((decide (a = '-') && decide (b = '-'))
              || containsDoubleHyphen ((b :: rest2) ++ [c])) = _
          rw [ih, List.getLast?_cons_cons]
          show _ = (((decide (a = '-') && decide (b = '-'))
              || containsDoubleHyphen (b :: rest2)) || _)
          rw [Bool.or_assoc]

/-- The four three-same-one-different arrangements built from `c1 ≠ c2`
(the second inner block of `generate_repeat_pattern_domains`). -/
def pats31 (c1 c2 : Char) : List (List Char) :=
  [[c1, c1, c1, c2], [c1, c1, c2, c1], [c1, c2, c1, c1], [c2, c1, c1, c1]]

/-- The three two-two arrangements built from `c1 ≠ c2` (the third inner
block of `generate_repeat_pattern_domains`). -/
def pats22 (c1 c2 : Char) : List (List Char) :=
  [[c1, c1, c2, c2], [c1, c2, c2, c1], [c1, c2, c1, c2]]

/-- The double loop over ordered pairs `c1 ≠ c2` of the repeat-pattern
generator. -/
def pairBlock (pats : Char → Char → List (List Char)) (l : List Char) :
    List (List Char) :=
  l.flatMap fun c1 => l.flatMap fun c2 => if c1 ≠ c2 then pats c1 c2 else []

lemma grpd_eq (lettersOnly : Bool) :
    generate_repeat_pattern_domains lettersOnly
      = ((repeatChars lettersOnly).map fun c => [c, c, c, c])
        ++ (pairBlock pats31 (repeatChars lettersOnly)
            ++ pairBlock pats22 (repeatChars lettersOnly)) := rfl

lemma mem_pairBlock (pats : Char → Char → List (List Char)) (l : List Char)
    (s : List Char) :
    s ∈ pairBlock pats l ↔
      ∃ c1 ∈ l, ∃ c2 ∈ l, c1 ≠ c2 ∧ s ∈ pats c1 c2 := by
  constructor
  · intro h
    rcases List.mem_flatMap.mp h with ⟨c1, h1, h'⟩
    rcases List.mem_flatMap.mp h' with ⟨c2, h2, h''⟩
    by_cases hne : c1 ≠ c2
    · exact ⟨c1, h1, c2, h2, hne, by rwa [if_pos hne] at h''⟩
    · rw [if_neg hne] at h''
      exact absurd h'' (List.not_mem_nil s)
  · rintro ⟨c1, h1, c2, h2, hne, hs⟩
    exact List.mem_flatMap.mpr
      ⟨c1, h1, List.mem_flatMap.mpr ⟨c2, h2, by rwa [if_pos hne]⟩⟩

lemma length_flatMap_if (pats : Char → Char → List (List Char)) (k : Nat)
    (c1 : Char) (hk : ∀ b, c1 ≠ b → (pats c1 b).length = k) (l : List Char) :
    (l.flatMap fun c2 => if c1 ≠ c2 then pats c1 c2 else []).length
      = k * (l.filter fun c2 => c2 != c1).length := by
  induction l with
  | nil => simp
  | cons b rest ih =>
      rw [List.flatMap_cons, List.length_append, ih, List.filter_cons]
      by_cases hb : c1 = b
      · subst hb
        simp
      · rw [if_pos hb, hk b hb, if_pos (by simp [bne_iff_ne]; exact fun h => hb h.symm)]
        rw [List.length_cons, Nat.mul_succ]
        omega

lemma pairBlock_length (pats : Char → Char → List (List Char)) (k : Nat)
    (l : List Char) (m : Nat)
    (hk : ∀ a b, a ≠ b → (pats a b).length = k)
    (hm : ∀ c1 ∈ l, (l.filter fun c2 => c2 != c1).length = m) :
    (pairBlock pats l).length = l.length * (k * m) := by
  unfold pairBlock
  rw [List.length_flatMap]
  have hcongr : ∀ c1 ∈ l,
      (List.length ∘ fun c1 =>
        l.flatMap fun c2 => if c1 ≠ c2 then pats c1 c2 else []) c1
      = (fun _ : Char => k * m) c1 := by
    intro c1 h1
    show (l.flatMap fun c2 => if c1 ≠ c2 then pats c1 c2 else []).length = k * m
    rw [length_flatMap_if pats k c1 (fun b hb => hk c1 b hb) l, hm c1 h1]
  rw [List.map_congr_left hcongr, List.map_const', List.sum_replicate,
    smul_eq_mul]

lemma pairBlock_nodup (pats : Char → Char → List (List Char)) (l : List Char)
    (hl : l.Nodup)
    (hnd : ∀ a b, a ≠ b → (pats a b).Nodup)
    (hinner : ∀ a b b', a ≠ b → a ≠ b' → b ≠ b' →
      List.Disjoint (pats a b) (pats a b'))
    (houter : ∀ a b a' b', a ≠ b → a' ≠ b' → a ≠ a' →
      List.Disjoint (pats a b) (pats a' b')) :
    (pairBlock pats l).Nodup := by
  unfold pairBlock
  rw [List.nodup_flatMap]
  constructor
  · intro c1 h1
    rw [List.nodup_flatMap]
    constructor
    · intro c2 h2
      by_cases hne : c1 ≠ c2
      · rw [if_pos hne]
        exact hnd c1 c2 hne
      · rw [if_neg hne]
        exact List.nodup_nil
    · refine List.Pairwise.imp ?_ hl
      intro b b' hbb'
      show List.Disjoint (if c1 ≠ b then pats c1 b else [])
        (if c1 ≠ b' then pats c1 b' else [])
      by_cases h1b : c1 ≠ b
      · by_cases h1b' : c1 ≠ b'
        · rw [if_pos h1b, if_pos h1b']
          exact hinner c1 b b' h1b h1b' hbb'
        · rw [if_neg h1b']
          exact fun x hx hx' => absurd hx' (List.not_mem_nil x)
      · rw [if_neg h1b]
        exact fun x hx hx' => absurd hx (List.not_mem_nil x)
  · refine List.Pairwise.imp ?_ hl
    intro a a' haa'
    intro x hx hx'
    rcases List.mem_flatMap.mp hx with ⟨b, hb, hxb⟩
    rcases List.mem_flatMap.mp hx' with ⟨b', hb', hxb'⟩
    by_cases hab : a ≠ b
    · by_cases hab' : a' ≠ b'
      · rw [if_pos hab] at hxb
        rw [if_pos hab'] at hxb'
        exact houter a b a' b' hab hab' haa' hxb hxb'
      · rw [if_neg hab'] at hxb'
        exact absurd hxb' (List.not_mem_nil x)
    · rw [if_neg hab] at hxb
      exact absurd hxb (List.not_mem_nil x)

lemma pats31_nodup (a b : Char) (h : a ≠ b) : (pats31 a b).Nodup := by
  have h' : b ≠ a := h.symm
  simp [pats31, h, h']

lemma pats22_nodup (a b : Char) (h : a ≠ b) : (pats22 a b).Nodup := by
  have h' : b ≠ a := h.symm
  simp [pats22, h, h']

lemma pats31_disjoint_inner (a b b' : Char) (hab : a ≠ b) (hab' : a ≠ b')
    (hbb' : b ≠ b') : List.Disjoint (pats31 a b) (pats31 a b') := by
  intro x hx hx'
  have hba : b ≠ a := hab.symm
  have hb'a : b' ≠ a := hab'.symm
  have hb'b : b' ≠ b := hbb'.symm
  simp only [pats31, List.mem_cons, List.not_mem_nil, or_false] at hx hx'
  rcases hx with rfl | rfl | rfl | rfl <;> simp_all

lemma pats22_disjoint_inner (a b b' : Char) (hab : a ≠ b) (hab' : a ≠ b')
    (hbb' : b ≠ b') : List.Disjoint (pats22 a b) (pats22 a b') := by
  intro x hx hx'
  have hba : b ≠ a := hab.symm
  have hb'a : b' ≠ a := hab'.symm
  have hb'b : b' ≠ b := hbb'.symm
  simp only [pats22, List.mem_cons, List.not_mem_nil, or_false] at hx hx'
  rcases hx with rfl | rfl | rfl <;> simp_all

lemma pats31_disjoint_outer (a b a2 b2 : Char) (hab : a ≠ b)
    (ha2b2 : a2 ≠ b2) (haa2 : a ≠ a2) :
    List.Disjoint (pats31 a b) (pats31 a2 b2) := by
  intro x hx hx2
  have hba : b ≠ a := hab.symm
  have hb2a2 : b2 ≠ a2 := ha2b2.symm
  have ha2a : a2 ≠ a := haa2.symm
  simp only [pats31, List.mem_cons, List.not_mem_nil, or_false] at hx hx2
  rcases hx with rfl | rfl | rfl | rfl <;> simp_all

lemma pats22_disjoint_outer (a b a2 b2 : Char) (hab : a ≠ b)
    (ha2b2 : a2 ≠ b2) (haa2 : a ≠ a2) :
    List.Disjoint (pats22 a b) (pats22 a2 b2) := by
  intro x hx hx2
  have hba : b ≠ a := hab.symm
  have hb2a2 : b2 ≠ a2 := ha2b2.symm
  have ha2a : a2 ≠ a := haa2.symm
  simp only [pats22, List.mem_cons, List.not_mem_nil, or_false] at hx hx2
  rcases hx with rfl | rfl | rfl <;> simp_all

lemma rep4_not_mem_pats31 (c a b : Char) (hab : a ≠ b) :
    [c, c, c, c] ∉ pats31 a b := by
  intro h
  simp only [pats31, List.mem_cons, List.not_mem_nil, or_false] at h
  rcases h with h | h | h | h <;>
    simp only [List.cons.injEq, and_true, eq_self_iff_true] at h
  · exact hab (h.1.symm.trans h.2.2.2)
  · exact hab (h.1.symm.trans h.2.2.1)
  · exact hab (h.1.symm.trans h.2.1)
  · exact hab (h.2.1.symm.trans h.1)

lemma rep4_not_mem_pats22 (c a b : Char) (hab : a ≠ b) :
    [c, c, c, c] ∉ pats22 a b := by
  intro h
  simp only [pats22, List.mem_cons, List.not_mem_nil, or_false] at h
  rcases h with h | h | h <;>
    simp only [List.cons.injEq, and_true, eq_self_iff_true] at h
  · exact hab (h.1.symm.trans h.2.2.1)
  · exact hab (h.1.symm.trans h.2.1)
  · exact hab (h.1.symm.trans h.2.1)

lemma pats31_disjoint_pats22 (a b x y : Char) (hab : a ≠ b) (hxy : x ≠ y) :
    List.Disjoint (pats31 a b) (pats22 x y) := by
  intro s hs hs'
  simp only [pats31, pats22, List.mem_cons, List.not_mem_nil, or_false]
    at hs hs'
  rcases hs with rfl | rfl | rfl | rfl <;>
    rcases hs' with h | h | h <;>
    simp only [List.cons.injEq, and_true, eq_self_iff_true] at h
  · exact hxy (h.1.symm.trans h.2.2.1)
  · exact hxy (h.1.symm.trans h.2.1)
  · exact hxy (h.1.symm.trans h.2.1)
  · exact hxy (h.1.symm.trans h.2.2.2)
  · exact hxy (h.1.symm.trans h.2.1)
  · exact hxy (h.1.symm.trans h.2.1)
  · exact hxy (h.1.symm.trans h.2.2.1)
  · exact hxy (h.1.symm.trans h.2.2.1)
  · exact hxy (h.1.symm.trans h.2.2.2)
  · exact hxy (h.2.1.symm.trans h.2.2.1)
  · exact hxy (h.2.2.2.symm.trans h.2.1)
  · exact hxy (h.2.2.1.symm.trans h.2.1)

lemma grpd_length (l : List Char) (m : Nat)
    (hm : ∀ c1 ∈ l, (l.filter fun c2 => c2 != c1).length = m) :
    ((l.map fun c => [c, c, c, c])
        ++ (pairBlock pats31 l ++ pairBlock pats22 l)).length
      = l.length + (l.length * (4 * m) + l.length * (3 * m)) := by
  rw [List.length_append, List.length_append, List.length_map,
    pairBlock_length pats31 4 l m (fun a b hab => rfl) hm,
    pairBlock_length pats22 3 l m (fun a b hab => rfl) hm]

lemma grpd_nodup (l : List Char) (hl : l.Nodup) :
    ((l.map fun c => [c, c, c, c])
        ++ (pairBlock pats31 l ++ pairBlock pats22 l)).Nodup := by
  rw [List.nodup_append]
  refine ⟨?_, ?_, ?_⟩
  · exact List.Nodup.map (fun u v huv => by simpa using huv) hl
  · rw [List.nodup_append]
    refine ⟨pairBlock_nodup pats31 l hl pats31_nodup pats31_disjoint_inner
        pats31_disjoint_outer,
      pairBlock_nodup pats22 l hl pats22_nodup pats22_disjoint_inner
        pats22_disjoint_outer, ?_⟩
    intro s hs hs'
    rcases (mem_pairBlock pats31 l s).mp hs with ⟨a, _, b, _, hab, hsab⟩
    rcases (mem_pairBlock pats22 l s).mp hs' with ⟨x, _, y, _, hxy, hsxy⟩
    exact pats31_disjoint_pats22 a b x y hab hxy hsab hsxy
  · intro s hs hs'
    rcases List.mem_map.mp hs with ⟨c, _, rfl⟩
    rcases List.mem_append.mp hs' with h | h
    · rcases (mem_pairBlock pats31 l _).mp h with ⟨a, _, b, _, hab, hmem⟩
      exact rep4_not_mem_pats31 c a b hab hmem
    · rcases (mem_pairBlock pats22 l _).mp h with ⟨a, _, b, _, hab, hmem⟩
      exact rep4_not_mem_pats22 c a b hab hmem

/-! ### Claim theorems -/

/-- C2: the status mapping is total over the integers and table-driven:
1 maps to Available, 0 to Registered, -95 to RateLimited, and every other
integer to Error. -/
theorem from_reply_code_table (c : Int)
    (h1 : c ≠ 1) (h0 : c ≠ 0) (h95 : c ≠ -95) :
    from_reply_code 1 = DomainStatus.Available ∧
    from_reply_code 0 = DomainStatus.Registered ∧
    from_reply_code (-95) = DomainStatus.RateLimited ∧
    from_reply_code c = DomainStatus.Error := by
  refine ⟨rfl, rfl, rfl, ?_⟩
  simp [from_reply_code, h1, h0, h95]

/-- Witness for C2 at the concrete codes 42 and -99. -/
theorem from_reply_code_table_witness :
    from_reply_code 42 = DomainStatus.Error ∧
    from_reply_code (-99) = DomainStatus.Error :=
  ⟨(from_reply_code_table 42 (by decide) (by decide) (by decide)).2.2.2,
   (from_reply_code_table (-99) (by decide) (by decide) (by decide)).2.2.2⟩

/-- C9: length-1 generation enumerates the alphabet with hyphen excluded:
26 hyphen-free entries in letters-only mode, 36 with digits. -/
theorem generate_domains_length_one :
    (generate_domains 1 true).length = 26 ∧
    (∀ s ∈ generate_domains 1 true, '-' ∉ s) ∧
    (generate_domains 1 false).length = 36 ∧
    (∀ s ∈ generate_domains 1 false, '-' ∉ s) := by
  decide

/-- C6: a response with no colon separator parses to the sentinel code
-99, which classifies as Error, with the whole response as the message. -/
theorem parse_response_no_separator (response : List Char)
    (h : ':' ∉ response) :
    parse_response response = (-99, response) ∧
    from_reply_code (parse_response response).1 = DomainStatus.Error := by
  have hs := split_once_eq_none response ':' h
  constructor
  · simp [parse_response, hs]
  · simp [parse_response, hs, from_reply_code]

/-- Witness for C6 at the response "garbage". -/
theorem parse_response_no_separator_witness :
    parse_response "garbage".toList = (-99, "garbage".toList) ∧
    from_reply_code (parse_response "garbage".toList).1 = DomainStatus.Error :=
  parse_response_no_separator "garbage".toList (by decide)

/-- C10: a response with a colon separator whose prefix does not parse as
an integer yields reply code -99 (status Error) with only the trimmed text
after the colon as the message. -/
theorem parse_response_bad_code (pre post : List Char)
    (hsep : ':' ∉ pre) (hbad : parse_i32 pre = none) :
    parse_response (pre ++ ':' :: post) = (-99, trimChars post) ∧
    from_reply_code (-99) = DomainStatus.Error := by
  have hs := split_once_append pre post ':' hsep
  constructor
  · simp [parse_response, hs, hbad]
  · rfl

/-- Witness for C10 at the response "abc:hello": the message is "hello",
not the whole response. -/
theorem parse_response_bad_code_witness :
    (parse_response ("abc".toList ++ ':' :: "hello".toList)
        = (-99, trimChars "hello".toList) ∧
      from_reply_code (-99) = DomainStatus.Error) ∧
    trimChars "hello".toList = "hello".toList ∧
    "hello".toList ≠ "abc:hello".toList :=
  ⟨parse_response_bad_code "abc".toList "hello".toList
      (by decide) (by decide),
   by decide, by decide⟩

/-- C4: over an alphabet of size N (26 letters-only, 36 with digits;
hyphen excluded), the repeat-pattern generator produces exactly
N + 4*N*(N-1) + 3*N*(N-1) candidate strings, with no duplicate across the
three structural classes. -/
theorem repeat_patterns_count_and_nodup (lettersOnly : Bool) :
    (repeatChars true).length = 26 ∧
    (repeatChars false).length = 36 ∧
    (generate_repeat_pattern_domains lettersOnly).length
      = (repeatChars lettersOnly).length
        + 4 * ((repeatChars lettersOnly).length
            * ((repeatChars lettersOnly).length - 1))
        + 3 * ((repeatChars lettersOnly).length
            * ((repeatChars lettersOnly).length - 1)) ∧
    (generate_repeat_pattern_domains lettersOnly).Nodup := by
  refine ⟨by decide, by decide, ?_, ?_⟩
  · rw [grpd_eq]
    cases lettersOnly
    · rw [grpd_length (repeatChars false) 35 (by decide),
        (by decide : (repeatChars false).length = 36)]
    · rw [grpd_length (repeatChars true) 25 (by decide),
        (by decide : (repeatChars true).length = 26)]
  · rw [grpd_eq]
    refine grpd_nodup (repeatChars lettersOnly) ?_
    cases lettersOnly
    · decide
    · decide

/-- C3: every candidate produced by generation for lengths 2 through 4, in
either alphabet mode, neither starts nor ends with a hyphen and contains
no two consecutive hyphens. -/
theorem generated_candidates_hyphen_free (len : Nat) (lettersOnly : Bool)
    (s : List Char) (hlo : 2 ≤ len) (hhi : len ≤ 4)
    (hs : s ∈ generate_domains len lettersOnly) :
    s.head? ≠ some '-' ∧ s.getLast? ≠ some '-' ∧
    containsDoubleHyphen s = false := by
  have hval : is_valid_domain s = true := by
    interval_cases len <;>
      exact (genLoop_mem (genChars lettersOnly) _ genFuel [[]] [] s
        hs).resolve_left (by simp)
  exact is_valid_domain_props s hval

set_option maxRecDepth 5000 in
/-- Witness for C3: the candidate "zz" of the length-2 letters-only
generation. -/
theorem generated_candidates_hyphen_free_witness :
    ['z', 'z'].head? ≠ some '-' ∧ ['z', 'z'].getLast? ≠ some '-' ∧
    containsDoubleHyphen ['z', 'z'] = false :=
  generated_candidates_hyphen_free 2 true ['z', 'z']
    (by decide) (by decide) (by decide)

lemma genLoop_step_push (chars : List Char) (len fuel : Nat)
    (current : List Char) (rest acc : List (List Char))
    (h : ¬ current.length = len) :
    genLoop chars len (fuel + 1) (current :: rest) acc
      = genLoop chars len fuel (pushChildren chars current rest) acc := by
  rw [genLoop, if_neg h]

set_option maxRecDepth 5000 in
/-- C5 counterexample: the first step of the length-2 DFS pops the empty
partial string and pushes the stack `pushChildren (genChars true) [] []`,
which contains the leading-hyphen partial "-": a partial string creating a
leading hyphen is pushed for further exploration, not pruned. -/
theorem leading_hyphen_partial_is_pushed :
    generate_domains 2 true
        = genLoop (genChars true) 2 (1999999 + 1) [[]] [] ∧
    genLoop (genChars true) 2 (1999999 + 1) [[]] []
        = genLoop (genChars true) 2 1999999
            (pushChildren (genChars true) [] []) [] ∧
    ['-'] ∈ pushChildren (genChars true) [] [] := by
  refine ⟨by decide, ?_, by decide⟩
  exact genLoop_step_push (genChars true) 2 1999999 [] [] [] (by decide)

/-- C5 amended: during the DFS, every partial extension that would create
a repeated hyphen is pruned, so starting from a stack free of double
hyphens the pushed stack stays free of double hyphens; leading-hyphen
partials are pushed and explored, but completed strings ending (or
starting) with a hyphen are discarded by the validity check, so no emitted
string ends with a hyphen. -/
theorem dfs_pruning_amended (chars current : List Char)
    (stack : List (List Char)) (len fuel : Nat) (s : List Char)
    (hcur : containsDoubleHyphen current = false)
    (hstack : ∀ u ∈ stack, containsDoubleHyphen u = false) :
    (∀ u ∈ pushChildren chars current stack,
      containsDoubleHyphen u = false) ∧
    (s ∈ genLoop chars len fuel stack [] → s.getLast? ≠ some '-') := by
  constructor
  · intro u hu
    rcases (mem_pushChildren chars current stack u).mp hu with h | ⟨c, _, hcond, hc⟩
    · exact hstack u h
    · subst hc
      rw [cdh_append_last, hcur]
      by_cases hlast : current.getLast? = some '-'
      · have hcne : ¬ c = '-' := by
          intro hceq
          rcases List.eq_nil_or_concat current with hnil | ⟨l2, b, hcat⟩
          · rw [hnil] at hlast
            simp at hlast
          · exact hcond ⟨by
              intro hn
              rw [hn] at hcat
              exact absurd hcat.symm (List.concat_ne_nil b l2), hceq, hlast⟩
        simp [hcne]
      · simp [hlast]
  · intro hs
    have := (genLoop_mem chars len fuel stack [] s hs).resolve_left (by simp)
    exact (is_valid_domain_props s this).2.1

/-- Witness for C5 amended, at the stack reached after the first step of
the length-2 letters-only DFS. -/
theorem dfs_pruning_amended_witness :
    (∀ u ∈ pushChildren (genChars true) [] [[]],
      containsDoubleHyphen u = false) ∧
    (['z', 'z'] ∈ genLoop (genChars true) 2 genFuel [[]] [] →
      ['z', 'z'].getLast? ≠ some '-') :=
  dfs_pruning_amended (genChars true) [] [[]] 2 genFuel ['z', 'z']
    (by decide) (by decide)

/-- C1 (code evaluation at the failing input): a connection failure is
propagated out of `query_domain_check` as an error rather than converted
into an Error-status `DomainResult`, and `scan_domains` then aborts the
whole run, so the subsequent candidate "ab" is never recorded. -/
theorem scan_aborts_on_connect_failure :
    query_domain_check "aa".toList NetworkOutcome.connectFail
        = Except.error "Failed to connect to whois server".toList ∧
    scan_domains
        [("aa".toList, NetworkOutcome.connectFail),
         ("ab".toList, NetworkOutcome.response "1:ok".toList)]
        = Except.error "Failed to connect to whois server".toList ∧
    (∀ results, scan_domains
        [("aa".toList, NetworkOutcome.connectFail),
         ("ab".toList, NetworkOutcome.response "1:ok".toList)]
        ≠ Except.ok results) := by
  refine ⟨rfl, rfl, fun results h => ?_⟩
  rw [show scan_domains
        [("aa".toList, NetworkOutcome.connectFail),
         ("ab".toList, NetworkOutcome.response "1:ok".toList)]
      = Except.error "Failed to connect to whois server".toList from rfl] at h
  exact Except.noConfusion h

/-- C8: a domain is in the available set iff some probe result for it had
status Available, and insertion is idempotent: two Available results for
the same domain leave a single entry. -/
theorem available_set_spec (results : List DomainResult) (d : List Char)
    (r : DomainResult) (h : r.status = DomainStatus.Available) :
    (d ∈ available_set results ↔
      ∃ x ∈ results, x.domain = d ∧ x.status = DomainStatus.Available) ∧
    (available_set [r, r]).card = 1 := by
  constructor
  · rw [available_set, mem_foldl_record]
    simp
  · show ((record_available (record_available ∅ r) r)).card = 1
    simp [record_available, h]

/-- Witness for C8 at a concrete Available result. -/
theorem available_set_spec_witness :
    ("a.li".toList ∈ available_set
        [⟨"a.li".toList, DomainStatus.Available, 1, "ok".toList⟩] ↔
      ∃ x ∈ [(⟨"a.li".toList, DomainStatus.Available, 1, "ok".toList⟩ :
          DomainResult)], x.domain = "a.li".toList ∧
        x.status = DomainStatus.Available) ∧
    (available_set
        [⟨"a.li".toList, DomainStatus.Available, 1, "ok".toList⟩,
         ⟨"a.li".toList, DomainStatus.Available, 1, "ok".toList⟩]).card = 1 :=
  available_set_spec
    [⟨"a.li".toList, DomainStatus.Available, 1, "ok".toList⟩]
    "a.li".toList
    ⟨"a.li".toList, DomainStatus.Available, 1, "ok".toList⟩ rfl

/-- C7: run composes generation by mode: full scan takes the exhaustive
lists for lengths 1-4 and no repeat-pattern set; default mode takes the
exhaustive lists for lengths 1-3 plus the repeat-pattern set. -/
theorem run_domains_composition (lettersOnly : Bool) :
    run_domains true lettersOnly =
      generate_domains 1 lettersOnly ++ generate_domains 2 lettersOnly ++
      generate_domains 3 lettersOnly ++ generate_domains 4 lettersOnly ∧
    run_domains false lettersOnly =
      generate_domains 1 lettersOnly ++ generate_domains 2 lettersOnly ++
      generate_domains 3 lettersOnly ++
      generate_repeat_pattern_domains lettersOnly := by
  constructor
  · show (List.range 4).foldl
        (fun acc i => acc ++ generate_domains (i + 1) lettersOnly) [] = _
    rw [show List.range 4 = [0, 1, 2, 3] from rfl]
    simp [List.foldl_cons]
  · show (List.range 3).foldl
        (fun acc i => acc ++ generate_domains (i + 1) lettersOnly) [] ++
        generate_repeat_pattern_domains lettersOnly = _
    rw [show List.range 3 = [0, 1, 2] from rfl]
    simp [List.foldl_cons]
